import Mathlib

/-!
Shallow embedding of the todo.txt line parser (package `todotxt`,
file `todo.go`) and proofs about it.

Strings are modelled as `List Char`; all characters the grammar can
accept are ASCII, where Go's byte indexing and rune decoding agree with
the character list view.  Go's `time.Parse`/`Format` with layout
`"2006-01-02"` are modelled by `goTimeParseDate`/`formatDate`; the
Unicode letter/digit classes used by tag extraction are modelled on
their ASCII fragment.  Absent dates (Go's zero `time.Time`) and the
absent priority (Go's zero rune) are modelled by `Option`.
-/

namespace Todotxt

/-- ASCII decimal digit test, as used by Go's `time` package for the
numeric fields of a layout. -/
def isDig (c : Char) : Bool := '0' ≤ c && c ≤ '9'

/-- Numeric value of a decimal digit character. -/
def dval (c : Char) : Nat := c.toNat - 48

/-- The decimal digit character for `n % 10`. -/
def digitChar (n : Nat) : Char := Char.ofNat (48 + n % 10)

/-- A calendar date: year, month, day. -/
structure Date where
  year : Nat
  month : Nat
  day : Nat
deriving DecidableEq

/-- Gregorian leap-year rule, as in Go's `time` package. -/
def isLeap (y : Nat) : Bool := y % 4 == 0 && (y % 100 != 0 || y % 400 == 0)

/-- Number of days in a month, as in Go's `time.daysIn`. -/
def daysInMonth (y m : Nat) : Nat :=
  if m = 2 then (if isLeap y then 29 else 28)
  else if m = 4 || m = 6 || m = 9 || m = 11 then 30
  else 31

/-- Go `time.Parse("2006-01-02", w)` on a 10-byte window `w`:
four year digits, a dash, two month digits, a dash, two day digits,
with the month in 1..12 and the day in range for the month. -/
def goTimeParseDate (w : List Char) : Option Date :=
  match w with
  | [y1, y2, y3, y4, s1, m1, m2, s2, d1, d2] =>
    if isDig y1 && isDig y2 && isDig y3 && isDig y4 && s1 = '-' &&
       isDig m1 && isDig m2 && s2 = '-' && isDig d1 && isDig d2 then
      let y := dval y1 * 1000 + dval y2 * 100 + dval y3 * 10 + dval y4
      let m := dval m1 * 10 + dval m2
      let d := dval d1 * 10 + dval d2
      if 1 ≤ m && m ≤ 12 && 1 ≤ d && d ≤ daysInMonth y m then
        some ⟨y, m, d⟩
      else none
    else none
  | _ => none

/-- Drop a single leading space character, if present. -/
def dropOneSpace (s : List Char) : List Char :=
  match s with
  | ' ' :: r => r
  | _ => s

/-- Function `parseDate` from `todo.go`: try to read a `len(DateFormat) = 10`
character date from the front of `s`; on failure return the unconsumed
`s`, on success also consume one following space if present. -/
def parseDate (s : List Char) : Option Date × List Char :=
  if s.length < 10 then (none, s)
  else
    match goTimeParseDate (s.take 10) with
    | none => (none, s)
    | some d => (some d, dropOneSpace (s.drop 10))

/-- Function `parseDone` from `todo.go`:
`len(s) ≥ 2 && s[0] == 'x' && s[1] == ' '`. -/
def parseDone (s : List Char) : Bool × List Char :=
  match s with
  | a :: b :: rest => if a = 'x' && b = ' ' then (true, rest) else (false, s)
  | _ => (false, s)

/-- The `PriorityRunes` constant from `todo.go`. -/
def PriorityRunes : List Char := "ABCDEFGHIJKLMNOPQRSTUVWXYZ".data

/-- Function `parsePriority` from `todo.go`: `(`, a rune of `PriorityRunes`,
`)`, then an optional space. -/
def parsePriority (s : List Char) : Option Char × List Char :=
  match s with
  | a :: b :: c :: rest =>
    if a = '(' && PriorityRunes.contains b && c = ')' then
      (some b, dropOneSpace rest)
    else (none, s)
  | _ => (none, s)

/-- Go's `unicode.IsSpace`. -/
def isGoSpace (c : Char) : Bool :=
  c = ' ' || c = '\t' || c = '\n' || c.toNat = 11 || c.toNat = 12 ||
  c = '\r' || c.toNat = 0x85 || c.toNat = 0xA0 || c.toNat = 0x1680 ||
  (0x2000 ≤ c.toNat && c.toNat ≤ 0x200A) || c.toNat = 0x2028 ||
  c.toNat = 0x2029 || c.toNat = 0x202F || c.toNat = 0x205F ||
  c.toNat = 0x3000

/-- Accumulating worker for `goFields`. -/
def goFieldsAux (acc : List Char) : List Char → List (List Char)
  | [] => if acc = [] then [] else [acc.reverse]
  | c :: rest =>
    if isGoSpace c then
      if acc = [] then goFieldsAux [] rest
      else acc.reverse :: goFieldsAux [] rest
    else goFieldsAux (c :: acc) rest

/-- Go's `strings.Fields`: the maximal runs of non-space characters. -/
def goFields (s : List Char) : List (List Char) := goFieldsAux [] s

/-- Go `strings.Replace(s, "\r\n", " ", -1)`: replace every
(non-overlapping, left to right) CR-LF pair by a single space. -/
def replaceCRLF : List Char → List Char
  | [] => []
  | [c] => [c]
  | a :: b :: rest =>
    if a = '\r' && b = '\n' then ' ' :: replaceCRLF rest
    else a :: replaceCRLF (b :: rest)

/-- Go `strings.Replace(s, "\n", " ", -1)` composed after `replaceCRLF`:
the newline normalization done at the top of `MakeTask`. -/
def normNL (s : List Char) : List Char :=
  (replaceCRLF s).map (fun c => if c = '\n' then ' ' else c)

/-- The `Task` struct from `todo.go`. -/
structure Task where
  text : List Char
  fields : List (List Char)
  done : Bool
  prio : Option Char
  createDate : Option Date
  doneDate : Option Date
deriving DecidableEq

/-- Function `MakeTask` from `todo.go`: normalize newlines, tokenize the fields,
then run `parseDone`, (if done) `parseDate`, `parsePriority`,
`parseDate` left to right over the successive remainders. -/
def MakeTask (raw : List Char) : Task :=
  let text := normNL raw
  let fields := goFields text
  let p1 := parseDone text
  let p2 := if p1.1 then parseDate p1.2 else (none, p1.2)
  let p3 := parsePriority p2.2
  let p4 := parseDate p3.2
  { text := text, fields := fields, done := p1.1, prio := p3.1,
    createDate := p4.1, doneDate := p2.1 }

/-- Method `Task.String` from `todo.go`: the stored text, verbatim. -/
def Task.String (t : Task) : List Char := t.text

/-- Method `Task.IsDone` from `todo.go`. -/
def Task.IsDone (t : Task) : Bool := t.done

/-- Method `Task.Priority` from `todo.go`. -/
def Task.Priority (t : Task) : Option Char := t.prio

/-- Method `Task.CompletionDate` from `todo.go`. -/
def Task.CompletionDate (t : Task) : Option Date := t.doneDate

/-- Method `Task.CreationDate` from `todo.go`. -/
def Task.CreationDate (t : Task) : Option Date := t.createDate

/-- Unicode letter class, modelled on its ASCII fragment. -/
def uniLetter (c : Char) : Bool := ('A' ≤ c && c ≤ 'Z') || ('a' ≤ c && c ≤ 'z')

/-- Unicode decimal-digit class, modelled on its ASCII fragment. -/
def uniDigit (c : Char) : Bool := '0' ≤ c && c ≤ '9'

/-- Function `tagEnd` from `todo.go`: digits, letters and underscore. -/
def tagEnd (r : Char) : Bool := uniDigit r || uniLetter r || r = '_'

/-- First rune of a field; `utf8.DecodeRuneInString` yields the
replacement rune on the empty string. -/
def firstRune : List Char → Char
  | [] => '�'
  | c :: _ => c

/-- Last rune of a field, mirroring `utf8.DecodeLastRuneInString`. -/
def lastRune (s : List Char) : Char := firstRune s.reverse

/-- Method `Task.Tags` from `todo.go`: collect, in field order, the fields
that start with the marker rune and end in a `tagEnd` rune. -/
def Task.Tags (t : Task) (marker : Char) : List (List Char) :=
  t.fields.foldl
    (fun tags f =>
      if firstRune f = marker then
        if tagEnd (lastRune f) then tags ++ [f] else tags
      else tags)
    []

/-- Split a field at its first `:` (Go `strings.IndexRune(f, ':')`):
`none` when there is no colon, otherwise the parts before and after it. -/
def splitColon : List Char → Option (List Char × List Char)
  | [] => none
  | c :: rest =>
    if c = ':' then some ([], rest)
    else
      match splitColon rest with
      | none => none
      | some kv => some (c :: kv.1, kv.2)

/-- One step of `Task.Keywords`' loop: a Go map insertion
`kwds[f[:i]] = f[i+1:]`, overwriting any earlier binding of the key. -/
def kwInsert (m : List Char → Option (List Char)) (f : List Char) :
    List Char → Option (List Char) :=
  match splitColon f with
  | none => m
  | some kv => fun q => if q = kv.1 then some kv.2 else m q

/-- Method `Task.Keywords` from `todo.go`, as the map (lookup function) built
by inserting each field's binding in order; later fields overwrite. -/
def Task.Keywords (t : Task) : List Char → Option (List Char) :=
  t.fields.foldl kwInsert (fun _ => none)

/-- Full decimal digits of `n`, most significant first. -/
def natDigits (n : Nat) : List Char :=
  if n < 10 then [digitChar n]
  else natDigits (n / 10) ++ [digitChar n]
decreasing_by exact Nat.div_lt_self (by omega) (by omega)

/-- Go's zero-padded two-digit rendering of `n < 100` (the `01`/`02`
layout fields). -/
def pad2 (n : Nat) : List Char := [digitChar (n / 10), digitChar n]

/-- Go's rendering of the `2006` layout field: four zero-padded digits,
or all digits when the year does not fit in four. -/
def pad4 (n : Nat) : List Char :=
  if n < 10000 then
    [digitChar (n / 1000), digitChar (n / 100), digitChar (n / 10), digitChar n]
  else natDigits n

/-- Go `t.Format("2006-01-02")` for the calendar date `d`. -/
def formatDate (d : Date) : List Char :=
  pad4 d.year ++ '-' :: (pad2 d.month ++ '-' :: pad2 d.day)

/-- Method `Task.Complete` from `todo.go`, with the wall-clock date passed in:
no-op when done, otherwise rebuild the task from
`"x " + today.Format(fmt) + text` where `fmt` gains a trailing space
exactly when the text is non-empty. -/
def Task.Complete (t : Task) (today : Date) : Task :=
  if t.done then t
  else MakeTask ('x' :: ' ' ::
    (formatDate today ++ (if t.text = [] then [] else [' ']) ++ t.text))

/-- Spec-side date token recognizer, written from the specification's
words: exactly 10 characters, a strictly valid `YYYY-MM-DD` calendar
date (4 year digits, a dash, 2 month digits, a dash, 2 day digits,
month in 1..12, day in range for the month and year). -/
def specValidDate10 (w : List Char) : Option Date :=
  if w.length = 10 && isDig (w.getD 0 ' ') && isDig (w.getD 1 ' ') &&
     isDig (w.getD 2 ' ') && isDig (w.getD 3 ' ') && (w.getD 4 ' ' = '-') &&
     isDig (w.getD 5 ' ') && isDig (w.getD 6 ' ') && (w.getD 7 ' ' = '-') &&
     isDig (w.getD 8 ' ') && isDig (w.getD 9 ' ') then
    let y := dval (w.getD 0 ' ') * 1000 + dval (w.getD 1 ' ') * 100 +
             dval (w.getD 2 ' ') * 10 + dval (w.getD 3 ' ')
    let m := dval (w.getD 5 ' ') * 10 + dval (w.getD 6 ' ')
    let d := dval (w.getD 8 ' ') * 10 + dval (w.getD 9 ' ')
    if 1 ≤ m && m ≤ 12 && 1 ≤ d && d ≤ daysInMonth y m then
      some ⟨y, m, d⟩
    else none
  else none

/-- Spec-side tag test, written from the specification's words: the
field's first rune equals the marker and its last rune is a letter,
digit or underscore. -/
def specIsTag (marker : Char) (f : List Char) : Bool :=
  (firstRune f = marker) && (uniLetter (lastRune f) || uniDigit (lastRune f) ||
    lastRune f = '_')

/-- Spec-side keyword lookup, written from the specification's words:
among the fields containing a `:`, the last one whose part before the
first `:` is `k` wins, and its value is the part after that `:`. -/
def specLastKV : List (List Char) → List Char → Option (List Char)
  | [], _ => none
  | f :: fs, k =>
    match specLastKV fs k with
    | some v => some v
    | none =>
      match splitColon f with
      | none => none
      | some kv => if kv.1 = k then some kv.2 else none

/-- Spec-side description of the parsing pipeline: `parseCompletion`,
then — only if done — `parseDate` for the completion date, then
`parsePriority`, then `parseDate` for the creation date on whatever
remains. -/
def specParseStages (text : List Char) :
    Bool × Option Date × Option Char × Option Date :=
  let p1 := parseDone text
  let p2 := if p1.1 then parseDate p1.2 else (none, p1.2)
  let p3 := parsePriority p2.2
  let p4 := parseDate p3.2
  (p1.1, p2.1, p3.1, p4.1)

/-- Spec-side completed text, written from the specification's words:
`"x "`, then the 10-character date token, then a single space and the
original text only if the original text was non-empty. -/
def specCompletedText (t : Task) (d : Date) : List Char :=
  'x' :: ' ' :: (formatDate d ++ (if t.text = [] then [] else ' ' :: t.text))

/-- A calendar date the wall clock can produce: valid month, valid day
for the month, and a four-digit year. -/
def ValidDate (d : Date) : Prop :=
  1 ≤ d.month ∧ d.month ≤ 12 ∧ 1 ≤ d.day ∧
  d.day ≤ daysInMonth d.year d.month ∧ d.year < 10000

instance (d : Date) : Decidable (ValidDate d) := by
  unfold ValidDate; infer_instance

lemma char_le_iff_toNat {a b : Char} : a ≤ b ↔ a.toNat ≤ b.toNat := by
  rw [Char.le_def, UInt32.le_def, BitVec.le_def]
  exact Iff.rfl

lemma digitChar_spec (n : Nat) :
    isDig (digitChar n) = true ∧ dval (digitChar n) = n % 10 ∧
    digitChar n ≠ '\n' := by
  have hlt : n % 10 < 10 := Nat.mod_lt _ (by omega)
  unfold digitChar dval isDig
  generalize n % 10 = j at hlt ⊢
  interval_cases j <;> exact ⟨by decide, by decide, by decide⟩

lemma priorityRunes_contains (b : Char) :
    PriorityRunes.contains b = ('A' ≤ b && b ≤ 'Z') := by
  by_cases h : 'A' ≤ b ∧ b ≤ 'Z'
  · have h65 : 65 ≤ b.toNat := char_le_iff_toNat.mp h.1
    have h90 : b.toNat ≤ 90 := char_le_iff_toNat.mp h.2
    have hb : Char.ofNat b.toNat = b := Char.ofNat_toNat b
    have : (PriorityRunes.contains b) = true := by
      rw [← hb]
      generalize hj : b.toNat = j at h65 h90
      interval_cases j <;> decide
    rw [this]
    simp [h.1, h.2]
  · have hcon : PriorityRunes.contains b = false := by
      by_contra hne
      have hmem : b ∈ PriorityRunes := by
        have := Bool.of_not_eq_false hne
        simpa [List.contains, List.elem_iff] using this
      have : 'A' ≤ b ∧ b ≤ 'Z' := by
        simp only [PriorityRunes, String.data] at hmem
        fin_cases hmem <;> exact ⟨by decide, by decide⟩
      exact h this
    rw [hcon]
    rcases not_and_or.mp h with h1 | h1 <;> simp [h1]

lemma parseDone_eq (s : List Char) :
    parseDone s = if s.take 2 = ['x', ' '] then (true, s.drop 2)
                  else (false, s) := by
  rcases s with _ | ⟨a, s⟩
  · simp [parseDone]
  rcases s with _ | ⟨b, s⟩
  · simp [parseDone]
  by_cases ha : a = 'x'
  · by_cases hb : b = ' ' <;> simp [parseDone, ha, hb]
  · simp [parseDone, ha]

lemma parseDone_false {s : List Char} (h : (parseDone s).1 = false) :
    parseDone s = (false, s) := by
  by_cases hc : s.take 2 = ['x', ' ']
  · rw [parseDone_eq, if_pos hc] at h
    simp at h
  · rw [parseDone_eq, if_neg hc]

lemma dropOneSpace_eq (s : List Char) :
    dropOneSpace s = match s with | ' ' :: r => r | r => r := by
  rcases s with _ | ⟨c, r⟩
  · rfl
  by_cases hc : c = ' ' <;> simp [dropOneSpace, hc]

lemma goTime_eq_spec (w : List Char) (h : w.length = 10) :
    goTimeParseDate w = specValidDate10 w := by
  rcases w with _ | ⟨c0, w⟩; · simp at h
  rcases w with _ | ⟨c1, w⟩; · simp at h
  rcases w with _ | ⟨c2, w⟩; · simp at h
  rcases w with _ | ⟨c3, w⟩; · simp at h
  rcases w with _ | ⟨c4, w⟩; · simp at h
  rcases w with _ | ⟨c5, w⟩; · simp at h
  rcases w with _ | ⟨c6, w⟩; · simp at h
  rcases w with _ | ⟨c7, w⟩; · simp at h
  rcases w with _ | ⟨c8, w⟩; · simp at h
  rcases w with _ | ⟨c9, w⟩; · simp at h
  rcases w with _ | ⟨c10, w⟩
  · simp [goTimeParseDate, specValidDate10, List.getD]
  · simp at h

lemma specValidDate10_short {w : List Char} (h : w.length ≠ 10) :
    specValidDate10 w = none := by
  unfold specValidDate10
  simp [h]

lemma replaceCRLF_no_lf : ∀ (s : List Char), '\n' ∉ s → replaceCRLF s = s
  | [], _ => rfl
  | [_], _ => rfl
  | a :: b :: rest, h => by
    have hb : b ≠ '\n' := by
      intro hb
      exact h (by simp [hb])
    have h2 : '\n' ∉ b :: rest := fun hm => h (List.mem_cons_of_mem a hm)
    have hcond : (a = '\r' && b = '\n') = false := by simp [hb]
    simp only [replaceCRLF, hcond, Bool.false_eq_true, if_false]
    rw [replaceCRLF_no_lf (b :: rest) h2]

lemma map_lf_id {s : List Char} (h : '\n' ∉ s) :
    s.map (fun c => if c = '\n' then ' ' else c) = s := by
  induction s with
  | nil => rfl
  | cons c rest ih =>
    have hc : ¬('\n' = c ∨ '\n' ∈ rest) := by simpa using h
    push_neg at hc
    simp [List.map_cons, ih hc.2, Ne.symm hc.1]

lemma normNL_eq_self {s : List Char} (h : '\n' ∉ s) : normNL s = s := by
  unfold normNL
  rw [replaceCRLF_no_lf s h, map_lf_id h]

lemma normNL_no_lf (s : List Char) : '\n' ∉ normNL s := by
  unfold normNL
  intro hm
  rcases List.mem_map.mp hm with ⟨c, _, hc⟩
  by_cases h : c = '\n' <;> simp [h] at hc

lemma natDigits_no_lf (n : Nat) : '\n' ∉ natDigits n := by
  induction n using natDigits.induct with
  | case1 n h =>
    rw [natDigits, if_pos h]
    simp
    exact fun hmm => (digitChar_spec n).2.2 hmm.symm
  | case2 n h ih =>
    rw [natDigits, if_neg h]
    simp [List.mem_append]
    exact ⟨fun hmm => (ih hmm).elim,
      fun hmm => (digitChar_spec n).2.2 hmm.symm⟩

lemma formatDate_no_lf (d : Date) : '\n' ∉ formatDate d := by
  have hd : ∀ n : Nat, ¬('\n' = digitChar n) :=
    fun n hmm => (digitChar_spec n).2.2 hmm.symm
  unfold formatDate pad2 pad4
  by_cases h4 : d.year < 10000 <;>
    simp [h4, List.mem_append, hd, natDigits_no_lf]

lemma formatDate_length (d : Date) (h : d.year < 10000) :
    (formatDate d).length = 10 := by
  simp [formatDate, pad4, pad2, h]

lemma daysInMonth_le (y m : Nat) : daysInMonth y m ≤ 31 := by
  unfold daysInMonth
  split_ifs <;> omega

lemma goTime_formatDate (d : Date) (hv : ValidDate d) :
    goTimeParseDate (formatDate d) = some d := by
  obtain ⟨y, m, dd⟩ := d
  obtain ⟨hm1, hm2, hd1, hd2, hy⟩ := hv
  simp only at hm1 hm2 hd1 hd2 hy
  have hIs : ∀ n, isDig (digitChar n) = true := fun n => (digitChar_spec n).1
  have hVal : ∀ n, dval (digitChar n) = n % 10 := fun n => (digitChar_spec n).2.1
  unfold formatDate pad4 pad2
  simp only
  rw [if_pos hy]
  simp only [List.cons_append, List.nil_append, List.append_nil]
  unfold goTimeParseDate
  simp only [hIs, hVal, Bool.and_true, Bool.true_and]
  have hy' : y / 1000 % 10 * 1000 + y / 100 % 10 * 100 + y / 10 % 10 * 10 +
      y % 10 = y := by omega
  have hm' : m / 10 % 10 * 10 + m % 10 = m := by omega
  have hdd31 : dd ≤ 31 := le_trans hd2 (daysInMonth_le y m)
  have hdd' : dd / 10 % 10 * 10 + dd % 10 = dd := by omega
  simp only [hy', hm', hdd']
  simp [hm1, hm2, hd1, hd2]

lemma parseDate_after_format (d : Date) (hv : ValidDate d)
    (rest : List Char) :
    parseDate (formatDate d ++ rest) = (some d, dropOneSpace rest) := by
  have hlen := formatDate_length d hv.2.2.2.2
  unfold parseDate
  rw [if_neg (by simp [hlen])]
  have htake : (formatDate d ++ rest).take 10 = formatDate d := by
    rw [← hlen]
    exact List.take_left _ _
  have hdrop : (formatDate d ++ rest).drop 10 = rest := by
    rw [← hlen]
    exact List.drop_left _ _
  rw [htake, hdrop, goTime_formatDate d hv]

lemma specIsTag_eq (m : Char) (f : List Char) :
    specIsTag m f = ((firstRune f = m) && tagEnd (lastRune f)) := by
  unfold specIsTag tagEnd
  by_cases h1 : uniLetter (lastRune f) <;> by_cases h2 : uniDigit (lastRune f) <;>
    by_cases h3 : lastRune f = '_' <;> simp [h1, h2, h3]

lemma foldl_tags (marker : Char) (l : List (List Char))
    (acc : List (List Char)) :
    l.foldl
      (fun tags f =>
        if firstRune f = marker then
          if tagEnd (lastRune f) then tags ++ [f] else tags
        else tags)
      acc
    = acc ++ l.filter (fun f => (firstRune f = marker) && tagEnd (lastRune f)) := by
  induction l generalizing acc with
  | nil => simp
  | cons f l ih =>
    by_cases h1 : firstRune f = marker <;> by_cases h2 : tagEnd (lastRune f) <;>
      simp [h1, h2, ih, List.filter_cons]

lemma foldl_keywords (l : List (List Char))
    (m : List Char -> Option (List Char)) (k : List Char) :
    (l.foldl kwInsert m) k =
      match specLastKV l k with
      | some v => some v
      | none => m k := by
  induction l generalizing m with
  | nil => rfl
  | cons f l ih =>
    rw [List.foldl_cons, ih]
    simp only [specLastKV]
    cases hLK : specLastKV l k with
    | some v => rfl
    | none =>
      unfold kwInsert
      cases hsp : splitColon f with
      | none => rfl
      | some kv =>
        by_cases hk : k = kv.1
        · subst hk
          simp
        · have h1 : ¬(kv.1 = k) := fun h => hk h.symm
          simp [hk, h1]

lemma makeTask_text (s : List Char) : (MakeTask s).text = normNL s := rfl

lemma makeTask_fields (s : List Char) :
    (MakeTask s).fields = goFields (normNL s) := rfl

lemma makeTask_notdone (s : List Char) (h : (MakeTask s).done = false) :
    (MakeTask s).prio = (parsePriority (normNL s)).1 /\
    (MakeTask s).createDate = (parseDate (parsePriority (normNL s)).2).1 /\
    (MakeTask s).doneDate = none := by
  have hp : (parseDone (normNL s)).1 = false := h
  have hps := parseDone_false hp
  unfold MakeTask
  simp only [hps]
  exact ⟨rfl, rfl, rfl⟩

lemma makeTask_completed (T : List Char) (d : Date) (hv : ValidDate d)
    (hT : '\n' ∉ T) :
    MakeTask ('x' :: ' ' ::
        (formatDate d ++ (if T = [] then [] else [' ']) ++ T)) =
      { text := 'x' :: ' ' ::
          (formatDate d ++ (if T = [] then [] else [' ']) ++ T),
        fields := goFields ('x' :: ' ' ::
          (formatDate d ++ (if T = [] then [] else [' ']) ++ T)),
        done := true,
        prio := (parsePriority T).1,
        createDate := (parseDate (parsePriority T).2).1,
        doneDate := some d } := by
  set raw := 'x' :: ' ' ::
    (formatDate d ++ (if T = [] then [] else [' ']) ++ T) with hraw
  have hnolf : '\n' ∉ raw := by
    rw [hraw]
    simp [List.mem_append, formatDate_no_lf d, hT]
  have hnorm : normNL raw = raw := normNL_eq_self hnolf
  have hdone : parseDone raw = (true, formatDate d ++
      (if T = [] then [] else [' ']) ++ T) := by
    rw [hraw]
    simp [parseDone]
  have hdate : parseDate (formatDate d ++
      (if T = [] then [] else [' ']) ++ T) = (some d, T) := by
    rw [List.append_assoc, parseDate_after_format d hv]
    by_cases hT0 : T = []
    · simp [hT0, dropOneSpace]
    · simp [hT0, dropOneSpace]
  unfold MakeTask
  simp only [hnorm, hdone, hdate]
  simp

/-- Claim C3: for every string `s`, if `s` has fewer than 10 characters
or its leading 10 characters are not a strictly valid `YYYY-MM-DD`
calendar date, `parseDate` returns an absent date with the original `s`
unconsumed; otherwise it returns that date, consuming exactly the
10-character token plus one immediately following space if present. -/
theorem claim_C3 : ∀ s : List Char,
    parseDate s =
      match specValidDate10 (s.take 10) with
      | none => (none, s)
      | some d => (some d, match s.drop 10 with | ' ' :: r => r | r => r) := by
  intro s
  by_cases h : s.length < 10
  · have hne : (s.take 10).length ≠ 10 := by
      rw [List.length_take]
      omega
    rw [specValidDate10_short hne]
    unfold parseDate
    rw [if_pos h]
  · have h10 : (s.take 10).length = 10 := by
      rw [List.length_take]
      omega
    unfold parseDate
    rw [if_neg h, goTime_eq_spec _ h10]
    cases specValidDate10 (s.take 10) with
    | none => rfl
    | some d => rw [dropOneSpace_eq]

/-- Claim C4: `parsePriority` succeeds exactly on a leading `(`, an
uppercase Latin letter, and `)`, consuming those three characters and
one trailing space if present, and otherwise returns absent with `s`
unconsumed; `"(a)"`, `"(AB)"` and `"(1)"` are all rejected. -/
theorem claim_C4 : (∀ s : List Char,
      parsePriority s =
        match s with
        | a :: b :: c :: rest =>
          if a = '(' && ('A' ≤ b && b ≤ 'Z') && c = ')' then
            (some b, match rest with | ' ' :: r => r | r => r)
          else (none, s)
        | _ => (none, s)) ∧
    parsePriority "(a)".data = (none, "(a)".data) ∧
    parsePriority "(AB)".data = (none, "(AB)".data) ∧
    parsePriority "(1)".data = (none, "(1)".data) := by
  refine ⟨?_, by decide, by decide, by decide⟩
  intro s
  rcases s with _ | ⟨a, s⟩
  · rfl
  rcases s with _ | ⟨b, s⟩
  · rfl
  rcases s with _ | ⟨c, s⟩
  · rfl
  show (if a = '(' && PriorityRunes.contains b && c = ')' then
      (some b, dropOneSpace s)
    else (none, a :: b :: c :: s)) =
    (if a = '(' && ('A' ≤ b && b ≤ 'Z') && c = ')' then
      (some b, match s with | ' ' :: r => r | r => r)
    else (none, a :: b :: c :: s))
  rw [priorityRunes_contains, dropOneSpace_eq]

/-- Claim C5: `parseDone` returns `(true, s[2:])` exactly when `s`
starts with the two characters `x` and space (case-sensitive, so a
capital `X` or a bare `x` is not matched, while the exact string
`"x "` is matched with empty remainder); otherwise `(false, s)`. -/
theorem claim_C5 : (∀ s : List Char,
      parseDone s =
        if s.take 2 = ['x', ' '] then (true, s.drop 2) else (false, s)) ∧
    parseDone "X a".data = (false, "X a".data) ∧
    parseDone "x".data = (false, "x".data) ∧
    parseDone "x ".data = (true, []) :=
  ⟨parseDone_eq, by decide, by decide, by decide⟩

/-- The end-to-end example line of the specification. -/
def exampleLine : List Char :=
  "x 2012-12-23 (A) 2012-12-20 Review +Proj @ctx due:2013-01-01".data

/-- Claim C1: `MakeTask` decomposes its normalized input by the fixed
left-to-right composition `parseCompletion`, then (only if done)
`parseDate` for the completion date, then `parsePriority`, then
`parseDate` for the creation date on whatever remains; and on the raw
line `"x 2012-12-23 (A) 2012-12-20 Review +Proj @ctx due:2013-01-01"`
it yields done, completion date 2012-12-23, priority `A`, creation
date 2012-12-20, projects `["+Proj"]`, contexts `["@ctx"]` and the
keyword map assigning `"2013-01-01"` to `"due"` and nothing else. -/
theorem claim_C1 : (∀ s : List Char,
      MakeTask s =
        { text := normNL s, fields := goFields (normNL s),
          done := (specParseStages (normNL s)).1,
          prio := (specParseStages (normNL s)).2.2.1,
          createDate := (specParseStages (normNL s)).2.2.2,
          doneDate := (specParseStages (normNL s)).2.1 }) ∧
    (MakeTask exampleLine).done = true ∧
    (MakeTask exampleLine).doneDate = some ⟨2012, 12, 23⟩ ∧
    (MakeTask exampleLine).prio = some 'A' ∧
    (MakeTask exampleLine).createDate = some ⟨2012, 12, 20⟩ ∧
    (MakeTask exampleLine).Tags '+' = ["+Proj".data] ∧
    (MakeTask exampleLine).Tags '@' = ["@ctx".data] ∧
    (∀ k : List Char, (MakeTask exampleLine).Keywords k =
      if k = "due".data then some ("2013-01-01".data) else none) :=
  ⟨fun _ => rfl, by decide, by decide, by decide, by decide, by decide,
    by decide, fun _ => rfl⟩

/-- Claim C6: `Tags marker` returns, in original field order with
duplicates preserved, exactly the whitespace-delimited fields of the
task text whose first rune is the marker and whose last rune is a
letter, digit or underscore; `"+foo+ +bar"` yields `["+bar"]` and
`"+foo+bar"` counts as a tag. -/
theorem claim_C6 : (∀ (s : List Char) (m : Char),
      (MakeTask s).Tags m =
        (goFields ((MakeTask s).String)).filter (specIsTag m)) ∧
    (MakeTask "+foo+ +bar".data).Tags '+' = ["+bar".data] ∧
    (MakeTask "+foo+bar".data).Tags '+' = ["+foo+bar".data] := by
  refine ⟨?_, by decide, by decide⟩
  intro s m
  have hfun : specIsTag m =
      fun f => ((firstRune f = m) && tagEnd (lastRune f)) :=
    funext (specIsTag_eq m)
  rw [hfun]
  show (MakeTask s).fields.foldl _ [] = _
  rw [foldl_tags]
  rfl

/-- Claim C7: `Keywords` maps, for every whitespace-delimited field
containing a colon, the part before the first colon to the part after
it, later fields overwriting earlier ones; fields without a colon are
ignored, the field `":"` binds the empty key to the empty value, and
`"due:2012-12-23 due:2012-12-24"` maps `"due"` to `"2012-12-24"`. -/
theorem claim_C7 : (∀ (s : List Char) (k : List Char),
      (MakeTask s).Keywords k =
        specLastKV (goFields ((MakeTask s).String)) k) ∧
    (∀ k : List Char,
      (MakeTask "due:2012-12-23 due:2012-12-24".data).Keywords k =
        if k = "due".data then some ("2012-12-24".data) else none) ∧
    (MakeTask ":".data).Keywords [] = some [] ∧
    (MakeTask "a:b:c".data).Keywords "a".data = some ("b:c".data) := by
  refine ⟨?_, ?_, by decide, by decide⟩
  · intro s k
    show ((MakeTask s).fields.foldl kwInsert fun _ => none) k = _
    rw [foldl_keywords]
    have heq : specLastKV (goFields ((MakeTask s).String)) k =
        specLastKV (MakeTask s).fields k := rfl
    rw [heq]
    cases specLastKV (MakeTask s).fields k with
    | none => rfl
    | some v => rfl
  · intro k
    show (if k = "due".data then some ("2012-12-24".data)
        else if k = "due".data then some ("2012-12-23".data) else none) =
      if k = "due".data then some ("2012-12-24".data) else none
    by_cases hk : k = "due".data <;> simp [hk]

/-- Claim C2: `Complete` is a no-op on a task that is already done;
otherwise, with `d` the wall-clock date read during the call, the task
is wholesale replaced by the construction of `"x "`, the formatted
date token, then a single space and the original text only if the
original text was non-empty — so for an empty-text task the new text
is exactly `"x "` followed by the date token, with no trailing space. -/
theorem claim_C2 (t : Task) (d : Date) :
    (t.Complete d = if t.done then t else MakeTask (specCompletedText t d)) ∧
    (t.done = false → t.text = [] →
      (t.Complete d).String = 'x' :: ' ' :: formatDate d) := by
  constructor
  · by_cases h : t.done = true
    · unfold Task.Complete
      simp [h]
    · have hb : t.done = false := by simpa using h
      unfold Task.Complete specCompletedText
      rw [hb]
      simp only [Bool.false_eq_true, if_false]
      congr 1
      by_cases ht : t.text = []
      · simp [ht]
      · simp [ht]
  · intro h1 h2
    have hraw : ('x' :: ' ' ::
        (formatDate d ++ (if t.text = [] then [] else [' ']) ++ t.text)) =
        'x' :: ' ' :: formatDate d := by
      rw [h2]
      simp
    unfold Task.Complete
    rw [h1]
    simp only [Bool.false_eq_true, if_false]
    rw [hraw]
    have hnolf : '\n' ∉ 'x' :: ' ' :: formatDate d := by
      simp [formatDate_no_lf d]
    show (MakeTask ('x' :: ' ' :: formatDate d)).text = _
    rw [makeTask_text, normNL_eq_self hnolf]

theorem claim_C2_witness :
    ((MakeTask []).Complete ⟨2012, 12, 23⟩).String =
      'x' :: ' ' :: formatDate ⟨2012, 12, 23⟩ :=
  (claim_C2 (MakeTask []) ⟨2012, 12, 23⟩).2 (by decide) (by decide)

/-- Claim C8 counterexample: the raw line `"x\nfoo"` does not start
with the two-character string `"x "`, yet the task constructed from it
is done, because `MakeTask` first replaces the newline by a space. -/
theorem claim_C8_cex :
    ("x\nfoo".data.take 2 ≠ ['x', ' ']) ∧
    (MakeTask "x\nfoo".data).IsDone = true :=
  ⟨by decide, by decide⟩

/-- Claim C8 (amended: the prefix test is on the newline-normalized
text): for every input whose normalized text does not start with
`"x "`, the constructed task has `IsDone` false and an absent
completion date — the completion-date stage is never run. -/
theorem claim_C8 (s : List Char)
    (h : (normNL s).take 2 ≠ ['x', ' ']) :
    (MakeTask s).IsDone = false ∧ (MakeTask s).CompletionDate = none := by
  have hpd : parseDone (normNL s) = (false, normNL s) := by
    rw [parseDone_eq, if_neg h]
  show ((MakeTask s).done = false) ∧ ((MakeTask s).doneDate = none)
  unfold MakeTask
  simp [hpd]

theorem claim_C8_witness :
    (MakeTask "2012-12-23 hello".data).IsDone = false ∧
    (MakeTask "2012-12-23 hello".data).CompletionDate = none :=
  claim_C8 _ (by decide)

/-- Claim C9: `String` returns the stored text verbatim, which is the
input with every CR-LF pair and then every remaining newline replaced
by a single space; in particular construct-then-serialize is the
identity on every input without newline characters. -/
theorem claim_C9 (s : List Char) :
    (MakeTask s).String =
      (replaceCRLF s).map (fun c => if c = '\n' then ' ' else c) ∧
    ('\n' ∉ s → (MakeTask s).String = s) := by
  constructor
  · rfl
  · intro h
    show normNL s = s
    exact normNL_eq_self h

theorem claim_C9_witness :
    (MakeTask "hello".data).String = "hello".data :=
  (claim_C9 "hello".data).2 (by decide)

/-- Claim C10: completing a not-yet-done task with the wall-clock date
`d` makes it done with completion date `d`, while its priority and
creation date are unchanged: re-parsing consumes the new `"x "` marker
and the date token plus its separating space exactly, leaving the
original text for the priority and creation-date stages. -/
theorem claim_C10 (s : List Char) (d : Date) (hv : ValidDate d)
    (hdone : (MakeTask s).IsDone = false) :
    ((MakeTask s).Complete d).IsDone = true ∧
    ((MakeTask s).Complete d).CompletionDate = some d ∧
    ((MakeTask s).Complete d).Priority = (MakeTask s).Priority ∧
    ((MakeTask s).Complete d).CreationDate = (MakeTask s).CreationDate := by
  have hdf : (MakeTask s).done = false := hdone
  have hmn := makeTask_notdone s hdf
  have hT : '\n' ∉ normNL s := normNL_no_lf s
  have htext : (MakeTask s).text = normNL s := rfl
  unfold Task.Complete
  rw [hdf]
  simp only [Bool.false_eq_true, if_false]
  rw [htext]
  rw [makeTask_completed (normNL s) d hv hT]
  refine ⟨rfl, rfl, ?_, ?_⟩
  · show (parsePriority (normNL s)).1 = (MakeTask s).Priority
    exact hmn.1.symm
  · show (parseDate (parsePriority (normNL s)).2).1 =
      (MakeTask s).CreationDate
    exact hmn.2.1.symm

theorem claim_C10_witness :
    ((MakeTask "(B) hello".data).Complete ⟨2026, 10, 11⟩).IsDone = true ∧
    ((MakeTask "(B) hello".data).Complete ⟨2026, 10, 11⟩).CompletionDate =
      some ⟨2026, 10, 11⟩ ∧
    ((MakeTask "(B) hello".data).Complete ⟨2026, 10, 11⟩).Priority =
      (MakeTask "(B) hello".data).Priority ∧
    ((MakeTask "(B) hello".data).Complete ⟨2026, 10, 11⟩).CreationDate =
      (MakeTask "(B) hello".data).CreationDate :=
  claim_C10 _ _ (by decide) (by decide)

end Todotxt
